import Mathlib

/-!
Verification development for the heimdall repository: a shallow embedding of
its glob engine (src/glob.rs, src/glob/tokenizer.rs, src/glob/parser.rs), its
ignore stack (src/tree/ignore.rs), its directed graph (src/graph.rs), its
inode-keyed store (src/tree/store.rs), the POSIX file wrapper (src/fs.rs)
and the tree builder (src/tree.rs).

Conventions of the embedding:
- Rust byte strings (`CString`, `OsStr` contents) are `List Nat` of byte
  values; decoded text (`&str`) is a `List Nat` of Unicode code points.
- Machine integers stay `Nat`; no arithmetic here ever wraps.
- A Rust panic (`unreachable!`, slab index out of bounds) is modelled as
  `none` in an `Option`-returning function.
- Slabs (`slab::Slab`) are modelled as plain lists: the repository never
  removes entries, so `insert` always allocates index `length`.
-/

/-- Unicode code points of a UTF-8 byte sequence, or `none` when the bytes are
not valid UTF-8.  This models Rust's `OsStr::to_str` / `str::from_utf8`
validity: continuation bytes are `0x80..0xBF`, overlong encodings, surrogate
code points `0xD800..0xDFFF` and values above `0x10FFFF` are rejected. -/
def utf8Decode : List Nat → Option (List Nat)
  | [] => some []
  | b :: rest =>
    if b < 128 then (utf8Decode rest).map (fun cs => b :: cs)
    else if b < 194 then none
    else if b < 224 then
      match rest with
      | b1 :: rest' =>
        if 128 ≤ b1 ∧ b1 < 192 then
          (utf8Decode rest').map (fun cs => ((b - 192) * 64 + (b1 - 128)) :: cs)
        else none
      | [] => none
    else if b < 240 then
      match rest with
      | b1 :: b2 :: rest' =>
        if (128 ≤ b1 ∧ b1 < 192) ∧ (128 ≤ b2 ∧ b2 < 192) then
          let cp := (b - 224) * 4096 + (b1 - 128) * 64 + (b2 - 128)
          if cp < 2048 then none
          else if 55296 ≤ cp ∧ cp ≤ 57343 then none
          else (utf8Decode rest').map (fun cs => cp :: cs)
        else none
      | _ => none
    else if b < 245 then
      match rest with
      | b1 :: b2 :: b3 :: rest' =>
        if (128 ≤ b1 ∧ b1 < 192) ∧ (128 ≤ b2 ∧ b2 < 192) ∧ (128 ≤ b3 ∧ b3 < 192) then
          let cp := (b - 240) * 262144 + (b1 - 128) * 4096 + (b2 - 128) * 64 + (b3 - 128)
          if cp < 65536 then none
          else if cp > 1114111 then none
          else (utf8Decode rest').map (fun cs => cp :: cs)
        else none
      | _ => none
    else none

/-- The regex fragments `src/glob/parser.rs` assembles with `regex_syntax`:
a literal character, the class `[^/]` (from `?`), the repetition `[^/]*`
(from `*`), and a character class built from `[...]` ranges. -/
inductive Rx
  | lit (c : Nat)
  | anyNonSep
  | starNonSep
  | cls (ranges : List (Nat × Nat))
deriving DecidableEq, Repr

/-- Membership of a code point in a list of inclusive character ranges. -/
def inRanges (rs : List (Nat × Nat)) (x : Nat) : Bool :=
  rs.any (fun r => decide (r.1 ≤ x ∧ x ≤ r.2))

/-- Anchored matching of a concatenated regex fragment list against a whole
code-point list, with backtracking for `[^/]*`.  The fuel only needs to exceed
`ps.length + xs.length`; every recursive call shrinks that sum. -/
def rxMatchF : Nat → List Rx → List Nat → Bool
  | 0, _, _ => false
  | _ + 1, [], [] => true
  | _ + 1, [], _ :: _ => false
  | fuel + 1, p :: ps, xs =>
    match p, xs with
    | Rx.lit c, x :: xs' => x == c && rxMatchF fuel ps xs'
    | Rx.lit _, [] => false
    | Rx.anyNonSep, x :: xs' => (x != 47) && rxMatchF fuel ps xs'
    | Rx.anyNonSep, [] => false
    | Rx.cls rs, x :: xs' => inRanges rs x && rxMatchF fuel ps xs'
    | Rx.cls _, [] => false
    | Rx.starNonSep, xs =>
      rxMatchF fuel ps xs ||
        (match xs with
         | [] => false
         | x :: xs' => (x != 47) && rxMatchF fuel (Rx.starNonSep :: ps) xs')

/-- `Regex::is_match` for the anchored `^…$` regexes the parser produces. -/
def rxMatch (ps : List Rx) (xs : List Nat) : Bool :=
  rxMatchF (ps.length + xs.length + 1) ps xs

/-! ## Tokenizer (src/glob/tokenizer.rs) -/

/-- The token kinds of `glob::tokenizer::Token`. -/
inductive Token
  | ending
  | negate
  | separator
  | star
  | question
  | squareStart
  | squareEnd
  | dash
deriving DecidableEq, Repr

/-- The bitflags set `glob::tokenizer::TokenSet`, one flag per token kind. -/
structure TokenSet where
  negate : Bool := false
  separator : Bool := false
  star : Bool := false
  question : Bool := false
  squareStart : Bool := false
  squareEnd : Bool := false
  dash : Bool := false
  literal : Bool := false
deriving DecidableEq, Repr

def tsEmpty : TokenSet := {}
def tsNegate : TokenSet := { negate := true }
def tsStar : TokenSet := { star := true }
def tsSquareEnd : TokenSet := { squareEnd := true }
def tsLiteral : TokenSet := { literal := true }
def tsStarSep : TokenSet := { star := true, separator := true }
def tsAccept : TokenSet := { star := true, question := true, squareStart := true }
def tsBreak : TokenSet :=
  { star := true, question := true, squareStart := true, separator := true }

/-- `TokenSet::test_char`: classify one character if its kind is accepted. -/
def TokenSet.testChar (s : TokenSet) (c : Nat) : Option Token :=
  if c == 33 && s.negate then some Token.negate
  else if c == 47 && s.separator then some Token.separator
  else if c == 42 && s.star then some Token.star
  else if c == 63 && s.question then some Token.question
  else if c == 91 && s.squareStart then some Token.squareStart
  else if c == 93 && s.squareEnd then some Token.squareEnd
  else if c == 45 && s.dash then some Token.dash
  else none

/-- `glob::tokenizer::Tokenizer`.  `inner` is the pattern as code points; the
indices count characters (the source counts bytes, but every token character
is ASCII and literal runs advance by their own length, so the reachable
states agree). -/
structure Tokenizer where
  inner : List Nat
  index : Nat
  lastIndex : Nat
deriving DecidableEq, Repr

def Tokenizer.remaining (t : Tokenizer) : List Nat := t.inner.drop t.index

def Tokenizer.flush (t : Tokenizer) : Tokenizer := { t with lastIndex := t.index }

def Tokenizer.reset (t : Tokenizer) : Tokenizer := { t with index := t.lastIndex }

/-- `Tokenizer::next_token`: accept one token from the accepted set, advancing
iff accepted; the empty set matches only the end of input. -/
def Tokenizer.nextToken (t : Tokenizer) (accepted : TokenSet) :
    Option Token × Tokenizer :=
  let rem := t.remaining
  if accepted = tsEmpty then
    if rem = [] then (some Token.ending, t) else (none, t)
  else
    match rem with
    | [] => (none, t)
    | c :: _ =>
      match accepted.testChar c with
      | some tok => (some tok, { t with index := t.index + 1 })
      | none => (none, t)

/-- `Tokenizer::read_literal`: a maximal nonempty run terminated by the follow
set (the terminator itself is not consumed). -/
def Tokenizer.readLiteral (t : Tokenizer) (follow : TokenSet) :
    Option (List Nat) × Tokenizer :=
  let rem := t.remaining
  match rem.findIdx? (fun c => (follow.testChar c).isSome) with
  | some i =>
    if i = 0 then (none, t)
    else (some (rem.take i), { t with index := t.index + i })
  | none =>
    let t' := { t with index := t.inner.length }
    if rem = [] then (none, t') else (some rem, t')

/-! ## Parser (src/glob/parser.rs) -/

/-- `glob::parser::Segment`: one path component of a parsed pattern. -/
inductive Segment
  | pattern (rx : List Rx)
  | anything
  | separator
deriving DecidableEq, Repr

/-- `glob::parser::Ast`. -/
structure Ast where
  startsNegated : Bool
  segments : List Segment
deriving DecidableEq, Repr

/-- The error type of src/error.rs restricted to the glob engine:
`InvalidGlobParse` and `InvalidGlobCompile`.  `outOfFuel` is an artefact of
the fueled loops (never reached with sufficient fuel) and `unreachableTok`
models the parser's `unreachable!`/`unwrap` aborts. -/
inductive GlobError
  | invalidParse (input : List Nat) (expected : TokenSet) (index : Nat)
  | invalidCompile (input : List Nat) (msg : String)
  | outOfFuel
  | unreachableTok
deriving DecidableEq, Repr

def Tokenizer.mkError (t : Tokenizer) (s : TokenSet) : GlobError :=
  GlobError.invalidParse t.inner s t.index

/-- The range-building loop of `parse_charset`: `a-b` adds the range `a..b`,
a dangling `-` at the end is an error (`none`), anything else is a singleton
range. -/
def parseCharsetRanges : List Nat → Option (List (Nat × Nat))
  | [] => some []
  | [_, 45] => none
  | a :: 45 :: b :: rest' => (parseCharsetRanges rest').map (fun rs => (a, b) :: rs)
  | a :: rest => (parseCharsetRanges rest).map (fun rs => (a, a) :: rs)

/-- `parse_charset`: read the literal before `]` and build a character class.
As in the source the terminating `]` is left in the stream. -/
def parseCharset (t : Tokenizer) : Except GlobError Rx × Tokenizer :=
  match t.readLiteral tsSquareEnd with
  | (none, t') => (Except.error (t'.mkError tsSquareEnd), t')
  | (some text, t') =>
    match parseCharsetRanges text with
    | none => (Except.error (t'.mkError tsLiteral), t')
    | some rs => (Except.ok (Rx.cls rs), t')

/-- The loop of `parse_pattern`.  Every continuing iteration consumes at least
one character, so fuel `t.remaining.length + 1` is always sufficient. -/
def parsePatternLoop : Nat → Tokenizer → List Rx →
    Except GlobError (List Rx × Tokenizer)
  | 0, _, _ => Except.error GlobError.outOfFuel
  | fuel + 1, t, acc =>
    match t.nextToken tsAccept with
    | (some Token.star, t1) =>
      match t1.nextToken tsStar with
      | (some _, t2) => Except.ok (acc, t2.reset)
      | (none, t2) => parsePatternLoop fuel t2.flush (acc ++ [Rx.starNonSep])
    | (some Token.question, t1) => parsePatternLoop fuel t1.flush (acc ++ [Rx.anyNonSep])
    | (some Token.squareStart, t1) =>
      match parseCharset t1 with
      | (Except.error e, _) => Except.error e
      | (Except.ok r, t2) => parsePatternLoop fuel t2.flush (acc ++ [r])
    | (some _, _) => Except.error GlobError.unreachableTok
    | (none, t1) =>
      match t1.readLiteral tsBreak with
      | (some lit, t2) => parsePatternLoop fuel t2.flush (acc ++ lit.map Rx.lit)
      | (none, t2) => Except.ok (acc, t2)

/-- `parse_pattern`: `none` when no regex fragment was consumed. -/
def parsePatternFn (t : Tokenizer) : Except GlobError (Option (List Rx) × Tokenizer) :=
  match parsePatternLoop (t.remaining.length + 1) t [] with
  | Except.error e => Except.error e
  | Except.ok (acc, t') =>
    Except.ok ((if acc = [] then none else some acc), t')

/-- `parse_segment`: a pattern, `**` (Anything), a separator, or `none` when
the input is exhausted at this level. -/
def parseSegmentFn (t : Tokenizer) : Except GlobError (Option Segment × Tokenizer) :=
  match parsePatternFn t with
  | Except.error e => Except.error e
  | Except.ok (some rx, t1) => Except.ok (some (Segment.pattern rx), t1)
  | Except.ok (none, t1) =>
    match t1.nextToken tsStarSep with
    | (some Token.star, t2) =>
      match t2.nextToken tsStar with
      | (some _, t3) => Except.ok (some Segment.anything, t3.flush)
      | (none, _) => Except.error GlobError.unreachableTok
    | (some Token.separator, t2) => Except.ok (some Segment.separator, t2.flush)
    | (some _, _) => Except.error GlobError.unreachableTok
    | (none, t2) => Except.ok (none, t2)

/-- The segment loop of `parse`. -/
def parseSegmentsLoop : Nat → Tokenizer → List Segment →
    Except GlobError (List Segment × Tokenizer)
  | 0, _, _ => Except.error GlobError.outOfFuel
  | fuel + 1, t, acc =>
    match parseSegmentFn t with
    | Except.error e => Except.error e
    | Except.ok (none, t') => Except.ok (acc, t')
    | Except.ok (some seg, t') => parseSegmentsLoop fuel t' (acc ++ [seg])

/-- `glob::parser::parse`: optional leading `!`, a list of segments, and the
input must then be exhausted. -/
def parseGlob (input : List Nat) : Except GlobError Ast :=
  let t0 : Tokenizer := { inner := input, index := 0, lastIndex := 0 }
  let r1 := t0.nextToken tsNegate
  match parseSegmentsLoop (input.length + 1) r1.2 [] with
  | Except.error e => Except.error e
  | Except.ok (segments, t2) =>
    match t2.nextToken tsEmpty with
    | (some Token.ending, _) =>
      Except.ok { startsNegated := r1.1.isSome, segments := segments }
    | _ => Except.error (GlobError.invalidParse input tsEmpty t2.index)

/-! ## Glob arena (src/glob.rs) -/

/-- `glob::Glob`: one compiled segment.  `segment = none` is the `**`
Anything sentinel; `some ps` is the anchored regex over non-`/` characters. -/
structure Glob where
  segment : Option (List Rx)
  negated : Bool
  trailingSlash : Bool
  relative : Bool
deriving DecidableEq, Repr

/-- `glob::GlobArena`: a slab of segments plus the `children` map linking a
segment to its successor in the pattern it was parsed from. -/
structure GlobArena where
  storage : List Glob
  children : List (Nat × Nat)
deriving DecidableEq, Repr

def emptyArena : GlobArena := { storage := [], children := [] }

/-- `self.children.get(&key)` (the HashMap holds at most one value per key;
compile only ever inserts fresh keys, so an association list that is searched
front to back is an exact model). -/
def childOf (a : GlobArena) (k : Nat) : Option Nat :=
  (a.children.find? (fun p => p.1 == k)).map (fun p => p.2)

/-- The `batching` closure of `compile_glob`: group the parsed segments into
`(matcher-or-Anything, trailing_slash)` pairs; a separator where a pattern is
expected, or two patterns without a separator between them, are compile
errors. -/
def batchSegments (input : List Nat) : List Segment →
    Except GlobError (List (Option (List Rx) × Bool))
  | [] => Except.ok []
  | Segment.separator :: _ =>
    Except.error (GlobError.invalidCompile input "unexpected /")
  | seg :: rest =>
    let m : Option (List Rx) :=
      match seg with
      | Segment.pattern rx => some rx
      | _ => none
    match rest with
    | [] => Except.ok [(m, false)]
    | Segment.separator :: rest' =>
      match batchSegments input rest' with
      | Except.ok pairs => Except.ok ((m, true) :: pairs)
      | Except.error e => Except.error e
    | _ =>
      Except.error (GlobError.invalidCompile input "/ needed between sections")

/-- The insertion loop of `compile_glob`: slab-insert each pair, link each
segment to its successor, and track the first and latest keys. -/
def insertPairs (neg rel : Bool) :
    GlobArena × Option Nat × Option Nat → List (Option (List Rx) × Bool) →
    GlobArena × Option Nat × Option Nat
  | st, [] => st
  | (a, firstK, latestK), (m, tr) :: rest =>
    let key := a.storage.length
    let glob : Glob :=
      { segment := m, negated := neg, trailingSlash := tr, relative := rel }
    let a1 : GlobArena := { a with storage := a.storage ++ [glob] }
    let a2 : GlobArena :=
      match latestK with
      | some old => { a1 with children := (old, key) :: a1.children }
      | none => a1
    insertPairs neg rel (a2, some (firstK.getD key), some key) rest

/-- `GlobArena::compile_glob`. -/
def compileGlob (a : GlobArena) (input : List Nat) :
    Except GlobError (GlobArena × Nat) :=
  match parseGlob input with
  | Except.error e => Except.error e
  | Except.ok ast =>
    let fp :=
      match ast.segments with
      | Segment.separator :: rest => (true, rest)
      | segs => (decide (segs.length > 2), segs)
    match batchSegments input fp.2 with
    | Except.error e => Except.error e
    | Except.ok pairs =>
      match insertPairs ast.startsNegated (!fp.1) (a, none, none) pairs with
      | (a', some firstK, _) => Except.ok (a', firstK)
      | (_, none, _) =>
        Except.error (GlobError.invalidCompile input "no glob segments")

/-- `Regex::is_match`, lifted over the Anything sentinel: the Anything
matcher trivially matches. -/
def segMatches (glob : Glob) (chars : List Nat) : Bool :=
  match glob.segment with
  | some ps => rxMatch ps chars
  | none => true

/-- `GlobArena::match_file` (src/glob.rs lines 116-133).  The `isDir`
argument is accepted and ignored, as in the source.  An absent key (a slab
index panic in the source, unreachable for compiled keys) is modelled as
`none`. -/
def GlobArena.matchFile (a : GlobArena) (key : Nat) (name : List Nat)
    (_isDir : Bool) : Option Bool :=
  if (childOf a key).isSome then none
  else
    match a.storage.get? key with
    | none => none
    | some glob =>
      match utf8Decode name with
      | none => none
      | some chars =>
        if segMatches glob chars then some (!glob.negated) else none

/-- `GlobArena::match_dir` (src/glob.rs lines 139-170): the chained
`child_match`/`loop_match` iterator, materialised as a list. -/
def GlobArena.matchDir (a : GlobArena) (key : Nat) (name : List Nat) :
    Option (List Nat) :=
  match a.storage.get? key with
  | none => none
  | some glob =>
    match utf8Decode name with
    | none => none
    | some chars =>
      let isChildMatch := segMatches glob chars
      let childMatch := if isChildMatch then childOf a key else none
      let loopMatch :=
        if glob.relative || glob.segment.isNone then some key else none
      match childMatch, loopMatch with
      | none, none => none
      | _, _ => some (childMatch.toList ++ loopMatch.toList)

/-- Modelled from the spec (claim C7's sentence, §4.3): `match_file` returns
`None` whenever the segment has a successor; otherwise names that are not
valid UTF-8 never match; otherwise `Some (!negated)` if the name matches the
segment's matcher (Anything matching every name), else `None`. -/
def GlobArena.matchFileSpec (a : GlobArena) (key : Nat) (name : List Nat)
    (_isDir : Bool) : Option Bool :=
  match a.storage.get? key with
  | none => none
  | some glob =>
    if (childOf a key).isSome then none
    else
      match utf8Decode name with
      | none => none
      | some chars =>
        if segMatches glob chars then some (!glob.negated) else none

/-- Modelled from the spec (claim C8's sentence, §4.3): `match_dir` returns
exactly the union of the *descend* set (the successor, when the segment
matches the name and a successor exists) and the *stay* set (the segment
itself, when it is Anything or marked relative), and `None` when that union
is empty.  A name that is not valid UTF-8 matches no segment. -/
def GlobArena.matchDirSpec (a : GlobArena) (key : Nat) (name : List Nat) :
    Option (List Nat) :=
  match a.storage.get? key with
  | none => none
  | some glob =>
    let isMatchSpec :=
      match utf8Decode name with
      | none => false
      | some chars => segMatches glob chars
    let descend : List Nat :=
      if isMatchSpec then (childOf a key).toList else []
    let stay : List Nat :=
      if glob.segment.isNone || glob.relative then [key] else []
    if descend ++ stay = [] then none else some (descend ++ stay)

/-! ## Ignore stack (src/tree/ignore.rs) -/

/-- The byte string `.gitignore`. -/
def gitignoreBytes : List Nat := [46, 103, 105, 116, 105, 103, 110, 111, 114, 101]

/-- `tree::ignore::Ignore`: the arena plus `key_to_globs`, the map from a
directory's store key to its active glob segment keys (an association list
models the HashMap; keys are store identifiers). -/
structure Ignore where
  arena : GlobArena
  keyToGlobs : List (Nat × List Nat)
deriving DecidableEq, Repr

def emptyIgnore : Ignore := { arena := emptyArena, keyToGlobs := [] }

/-- `self.key_to_globs.get(&k)`, defaulting to the empty list. -/
def globsAt (ig : Ignore) (k : Nat) : List Nat :=
  ((ig.keyToGlobs.find? (fun p => p.1 == k)).map (fun p => p.2)).getD []

/-- Replace (or create) the glob list bound to key `k`. -/
def setGlobs (ig : Ignore) (k : Nat) (gs : List Nat) : Ignore :=
  { ig with keyToGlobs := (k, gs) :: ig.keyToGlobs.filter (fun p => p.1 != k) }

/-- The accumulator of `should_open`'s fold: an explicit keep
(`Some true` after the `!` mapping) dominates; otherwise the first opinion
sticks. -/
def combineOpen (old new : Option Bool) : Option Bool :=
  match old, new with
  | some true, _ => some true
  | _, some true => some true
  | o, n => o.or n

/-- `Ignore::should_open` (src/tree/ignore.rs lines 49-71). -/
def Ignore.shouldOpen (ig : Ignore) (parent : Nat) (name : List Nat)
    (isDir : Bool) : Bool :=
  if name.head? = some 46 ∧ name ≠ gitignoreBytes then false
  else
    let opinions := (globsAt ig parent).map
      (fun g => (ig.arena.matchFile g name isDir).map (fun x => !x))
    (opinions.foldl combineOpen none).getD true

/-- Modelled from the spec (claim C6's sentence, §4.6): the hidden-file rule,
then any explicit keep (`match_file = Some false`) wins, else any ignore
(`Some false`... i.e. `match_file = Some true`) wins, else open. -/
def Ignore.shouldOpenSpec (ig : Ignore) (parent : Nat) (name : List Nat)
    (isDir : Bool) : Bool :=
  if name.head? = some 46 ∧ name ≠ gitignoreBytes then false
  else
    let globs := globsAt ig parent
    if globs.any (fun g => ig.arena.matchFile g name isDir == some false) then
      true
    else if globs.any (fun g => ig.arena.matchFile g name isDir == some true) then
      false
    else true

/-- `Ignore::open_at`: seed the child's active list with every segment
produced by `match_dir` over the parent's active list. -/
def Ignore.openAt (ig : Ignore) (parent : Nat) (name : List Nat)
    (child : Nat) : Ignore :=
  let newGlobs :=
    ((globsAt ig parent).filterMap (fun g => ig.arena.matchDir g name)).flatten
  setGlobs ig child (globsAt ig child ++ newGlobs)

/-- Right-trim of ASCII whitespace, for `str::trim_end` on `.gitignore`
lines (the lines the builder meets here are ASCII). -/
def trimEndWs (l : List Nat) : List Nat :=
  (l.reverse.dropWhile (fun c => c == 32 || (9 ≤ c && c ≤ 13))).reverse

/-- `Ignore::parse_gitignore`, given the file's lines: skip comment and blank
lines, compile the rest, log-and-skip failures, and append the new keys to
`key_to_globs[at]`. -/
def Ignore.parseGitignore (ig : Ignore) (lines : List (List Nat))
    (atKey : Nat) : Ignore :=
  let step := fun (st : GlobArena × List Nat) (line : List Nat) =>
    if line.head? = some 35 ∨ trimEndWs line = [] then st
    else
      match compileGlob st.1 (trimEndWs line) with
      | Except.ok (a', key) => (a', st.2 ++ [key])
      | Except.error _ => st
  let st := lines.foldl step (ig.arena, [])
  { arena := st.1,
    keyToGlobs :=
      (atKey, globsAt ig atKey ++ st.2) ::
        ig.keyToGlobs.filter (fun p => p.1 != atKey) }

/-! ## Directed graph (src/graph.rs) -/

/-- `graph::InnerEdge`: a weight index into the weight slab plus the other
endpoint. -/
structure InnerEdge where
  weight : Nat
  connectsTo : Nat
deriving DecidableEq, Repr

/-- `graph::Node`: two-way adjacency lists. -/
structure GNode where
  incoming : List InnerEdge
  outgoing : List InnerEdge
deriving DecidableEq, Repr

/-- `graph::Graph`: a slab of weights plus the node vector. -/
structure Graph (W : Type) where
  weights : List W
  nodes : List GNode

def emptyGNode : GNode := { incoming := [], outgoing := [] }

def nodeAt (l : List GNode) (i : Nat) : GNode := (l.get? i).getD emptyGNode

/-- `Graph::extend_to`: grow the node vector with empty nodes to cover
index `n` (`(1 + n).saturating_sub(len)` new nodes). -/
def Graph.extendTo (g : Graph W) (n : Nat) : Graph W :=
  { g with nodes :=
      g.nodes ++ List.replicate ((1 + n) - g.nodes.length) emptyGNode }

/-- `self.nodes[i].outgoing.push(e)`. -/
def pushOutgoing (l : List GNode) (i : Nat) (e : InnerEdge) : List GNode :=
  l.set i { nodeAt l i with outgoing := (nodeAt l i).outgoing ++ [e] }

/-- `self.nodes[i].incoming.push(e)`. -/
def pushIncoming (l : List GNode) (i : Nat) (e : InnerEdge) : List GNode :=
  l.set i { nodeAt l i with incoming := (nodeAt l i).incoming ++ [e] }

/-- `Graph::add_edge`: extend to cover both endpoints, slab-insert the
weight, and push symmetric entries onto `from`'s outgoing and `to`'s
incoming lists. -/
def Graph.addEdge (g : Graph W) (f t : Nat) (w : W) : Graph W :=
  let g1 := g.extendTo (max f t)
  let wIdx := g1.weights.length
  { weights := g1.weights ++ [w],
    nodes := pushIncoming
      (pushOutgoing g1.nodes f { weight := wIdx, connectsTo := t }) t
      { weight := wIdx, connectsTo := f } }

/-- The outgoing list stored at index `i` of a node vector (empty when the
index is unknown). -/
def outsAt (l : List GNode) (i : Nat) : List InnerEdge := (nodeAt l i).outgoing

/-- The incoming list stored at index `i` of a node vector. -/
def insAt (l : List GNode) (i : Nat) : List InnerEdge := (nodeAt l i).incoming

/-- The raw outgoing adjacency list of a node (`nodes.get(n)`, empty when
the node is unknown). -/
def rawOutgoing (g : Graph W) (n : Nat) : List InnerEdge := outsAt g.nodes n

/-- The raw incoming adjacency list of a node. -/
def rawIncoming (g : Graph W) (n : Nat) : List InnerEdge := insAt g.nodes n

/-- `Graph::outgoing`: the `Edge { weight, connects_to }` iteration, with the
weight slab dereference (`none` would be a slab panic, unreachable for edges
made by `add_edge`). -/
def Graph.outgoing (g : Graph W) (n : Nat) : List (Option W × Nat) :=
  (rawOutgoing g n).map (fun e => (g.weights.get? e.weight, e.connectsTo))

/-- `Graph::incoming`: as `outgoing`, over the incoming list. -/
def Graph.incoming (g : Graph W) (n : Nat) : List (Option W × Nat) :=
  (rawIncoming g n).map (fun e => (g.weights.get? e.weight, e.connectsTo))

/-! ## Inode-keyed store (src/tree/store.rs) -/

/-- `store::TreeEntry`: an owned descriptor (collapsed to its raw fd, the
only field of `fs::File`) and the 64-bit inode. -/
structure TreeEntry where
  fd : Nat
  inode : Nat
deriving DecidableEq, Repr

/-- `store::TreeStore`.  The two `RawTable` hash indexes hold slab indices;
each is modelled as the list of indices it contains, probed in order.  A
`find(hash, eq)` probe can only ever return an index whose entry satisfies
`eq`; since every `eq` used by the source implies equality of the hashed key
(and hence of the hash), searching the whole list for the predicate is an
exact model of the hash-filtered probe. -/
structure TreeStore where
  storage : List TreeEntry
  fdIndex : List Nat
  inodeIndex : List Nat
deriving DecidableEq, Repr

def emptyStore : TreeStore := { storage := [], fdIndex := [], inodeIndex := [] }

/-- `table.find(hash, |&index| storage[index] == entry)`: the probe predicate
compares the FULL entry (both fd and inode), exactly as in the source. -/
def findFull (storage : List TreeEntry) (table : List Nat) (e : TreeEntry) :
    Option Nat :=
  table.find? (fun i => storage.get? i == some e)

/-- `TreeStore::insert` (src/tree/store.rs lines 64-94).  `none` models the
`unreachable!` abort of the `_` match arm. -/
def TreeStore.insert (s : TreeStore) (e : TreeEntry) : Option (TreeStore × Nat) :=
  let fdBucket := findFull s.storage s.fdIndex e
  let inodeBucket := findFull s.storage s.inodeIndex e
  match fdBucket, inodeBucket with
  | some a, some b => if a = b then some (s, a) else none
  | none, none =>
    let key := s.storage.length
    some ({ storage := s.storage ++ [e],
            fdIndex := s.fdIndex ++ [key],
            inodeIndex := s.inodeIndex ++ [key] }, key)
  | _, _ => none

/-- `TreeStore::key_to_entry`. -/
def TreeStore.keyToEntry (s : TreeStore) (k : Nat) : Option TreeEntry :=
  s.storage.get? k

/-- `TreeStore::inode_to_key`: probe the inode index comparing inodes only. -/
def TreeStore.inodeToKey (s : TreeStore) (inode : Nat) : Option Nat :=
  s.inodeIndex.find? (fun i =>
    match s.storage.get? i with
    | some e => e.inode == inode
    | none => false)

def storedFds (s : TreeStore) : List Nat := s.storage.map TreeEntry.fd

def storedInodes (s : TreeStore) : List Nat := s.storage.map TreeEntry.inode

/-- The store interaction of `Tree::add_child_file` (src/tree.rs lines
167-176): reuse the key when the inode is already present, otherwise insert
a fresh entry. -/
def addChildKey (s : TreeStore) (e : TreeEntry) : Option (TreeStore × Nat) :=
  match s.inodeToKey e.inode with
  | some key => some (s, key)
  | none => s.insert e

/-- The store states one tree's build can produce: a root entry inserted
into the fresh store, then children added through `add_child_file`'s
inode-guarded path.  The side condition `e.fd ∉ storedFds s` is the POSIX
model of §6: `open`/`openat` return a descriptor that is not currently open,
and every stored descriptor stays open for the tree's lifetime. -/
inductive TreeReach : TreeStore → Prop where
  | root (e : TreeEntry) (s' : TreeStore) (k : Nat)
      (h : TreeStore.insert emptyStore e = some (s', k)) : TreeReach s'
  | child (s : TreeStore) (e : TreeEntry) (s' : TreeStore) (k : Nat)
      (hr : TreeReach s) (hfd : e.fd ∉ storedFds s)
      (h : addChildKey s e = some (s', k)) : TreeReach s'

/-! ## POSIX file wrapper (src/fs.rs) -/

/-- `fs::FileType`. -/
inductive FileType
  | unknown
  | fifo
  | character
  | directory
  | block
  | regular
  | link
  | socket
  | whiteout
deriving DecidableEq, Repr

/-- Modelled from the spec (§6 platform contract): `readlinkat` places at
most `bufLen` bytes of the link's content into the buffer and returns the
number of bytes placed. -/
def readlinkatModel (content : List Nat) (bufLen : Nat) : Nat × List Nat :=
  (min content.length bufLen, content.take bufLen)

/-- `File::get_link_name` (src/fs.rs lines 168-180): the buffer is
`Vec::with_capacity(1024)`, whose LENGTH is 0, and `readlinkat` is called
with `buf.len()`; the result is truncated to the returned length. -/
def getLinkName (content : List Nat) : List Nat :=
  let bufLen := 0
  let r := readlinkatModel content bufLen
  (r.2).take r.1

/-- One outcome of an `open`/`openat` attempt in the POSIX model: a fresh
descriptor, or an OS error code (code 24 is `EMFILE`). -/
inductive SysRes
  | ok (fd : Nat)
  | err (code : Nat)
deriving DecidableEq, Repr

/-- `File::open` (src/fs.rs lines 82-90), driven by the list of outcomes the
OS would give to successive `open` calls; the `Nat` state is the soft
descriptor limit, doubled by `increase_ulimits`.  On `EMFILE` the limit is
raised and `open_raw` is retried exactly once, its result returned as-is. -/
def openModel (limit : Nat) : List SysRes → Except Nat (Nat × Nat)
  | [] => Except.error 999
  | SysRes.ok fd :: _ => Except.ok (fd, limit)
  | SysRes.err c :: rest =>
    if c == 24 then
      match rest with
      | [] => Except.error 999
      | SysRes.ok fd :: _ => Except.ok (fd, 2 * limit)
      | SysRes.err c2 :: _ => Except.error c2
    else Except.error c

/-- `File::open_at` (src/fs.rs lines 100-108): on `EMFILE` the limit is
raised and `open_at` CALLS ITSELF, so the retry is recursive, not single. -/
def openAtModel (limit : Nat) : List SysRes → Except Nat (Nat × Nat)
  | [] => Except.error 999
  | SysRes.ok fd :: _ => Except.ok (fd, limit)
  | SysRes.err c :: rest =>
    if c == 24 then openAtModel (2 * limit) rest
    else Except.error c

/-! ## Tree builder (src/tree.rs) -/

/-- `tree::Connection`: the edge label. -/
inductive Connection
  | child (name : List Nat)
  | symlink
deriving DecidableEq, Repr

/-- A file of the modelled filesystem (the POSIX collaborator of §6):
its stat data, its directory entries (name bytes to file id), its symlink
target bytes, and its text lines (for `.gitignore` files). -/
structure SimFile where
  kind : FileType
  inode : Nat
  children : List (List Nat × Nat)
  target : List Nat
  content : List (List Nat)
deriving DecidableEq, Repr

/-- The modelled filesystem: files addressed by id, plus the root's id. -/
structure SimFs where
  files : List SimFile
  rootId : Nat
deriving DecidableEq, Repr

def SimFs.getFile (fs : SimFs) (id : Nat) : Option SimFile := fs.files.get? id

/-- Name lookup inside a directory; `.` resolves to the directory itself
(this serves `fstatat`/`openat`, which are symlink-transparent here thanks
to `AT_SYMLINK_NOFOLLOW`/`O_SYMLINK`). -/
def resolveAt (fs : SimFs) (dirId : Nat) (name : List Nat) : Option Nat :=
  if name = [46] then some dirId
  else
    match fs.getFile dirId with
    | none => none
    | some d => (d.children.find? (fun p => p.1 == name)).map (fun p => p.2)

/-- `File::scan`: `readdir` yields `.` and `..` and the entries; `..` is
skipped, `.` is kept (as the source does). -/
def scanModel (fs : SimFs) (id : Nat) : Option (List (List Nat)) :=
  (fs.getFile id).map (fun f => [46] :: f.children.map (fun p => p.1))

/-- The kernel's descriptor table: which file each open fd refers to. -/
def lookupFd (fdMap : List (Nat × Nat)) (fd : Nat) : Option Nat :=
  (fdMap.find? (fun p => p.1 == fd)).map (fun p => p.2)

/-- The builder's mutable state during `Tree::new`. -/
structure BuildSt where
  fs : SimFs
  nextFd : Nat
  fdMap : List (Nat × Nat)
  store : TreeStore
  graph : Graph Connection
  ignores : Ignore

/-- `tree::UnresolvedFile`. -/
structure UnresolvedFile where
  key : Nat
  path : List Nat
deriving DecidableEq, Repr

/-- `tree::UnresolvedSymlink`. -/
structure UnresolvedSymlink where
  key : Nat
  path : List Nat
deriving DecidableEq, Repr

/-- `children.sort_by_key(|name| name.as_bytes() == b".gitignore")`: a stable
sort on a boolean key, i.e. every non-`.gitignore` name (in order) before
every `.gitignore` name. -/
def sortGitignoreLast (names : List (List Nat)) : List (List Nat) :=
  names.filter (fun n => n != gitignoreBytes) ++
    names.filter (fun n => n == gitignoreBytes)

/-- `Tree::add_file` (src/tree.rs lines 195-218): scan a directory's
children, insert the entry into the store, sort `.gitignore` last and push
each child onto the work stack (pushing onto the front models `Vec::push` +
`Vec::pop` LIFO order). -/
def addFileM (st : BuildSt) (entry : TreeEntry) (entryFileId : Nat)
    (kind : FileType) (files : List UnresolvedFile) :
    Option (BuildSt × Nat × List UnresolvedFile) := do
  let children ←
    if kind = FileType.directory then scanModel st.fs entryFileId else some []
  let r ← st.store.insert entry
  let sorted := sortGitignoreLast children
  let files' := sorted.foldl
    (fun acc c => { key := r.2, path := c } :: acc) files
  return ({ st with store := r.1 }, r.2, files')

/-- `Tree::add_child_file` (src/tree.rs lines 143-191). -/
def addChildFileM (st : BuildSt) (parentKey : Nat) (path : List Nat)
    (files : List UnresolvedFile) (symlinks : List UnresolvedSymlink) :
    Option (BuildSt × List UnresolvedFile × List UnresolvedSymlink) := do
  let parentEntry ← st.store.keyToEntry parentKey
  let parentFileId ← lookupFd st.fdMap parentEntry.fd
  let childFileId ← resolveAt st.fs parentFileId path
  let childFile ← st.fs.getFile childFileId
  let kind := childFile.kind
  let inode := childFile.inode
  if ¬ st.ignores.shouldOpen parentKey path (kind = FileType.directory) then
    return (st, files, symlinks)
  let realName : Option (List Nat) :=
    if kind = FileType.link then some (getLinkName childFile.target) else none
  let r ←
    match st.store.inodeToKey inode with
    | some key => some (st, key, files)
    | none => do
      let fd := st.nextFd
      let st1 : BuildSt :=
        { st with nextFd := st.nextFd + 1, fdMap := (fd, childFileId) :: st.fdMap }
      let st2 : BuildSt :=
        if path = gitignoreBytes ∧ kind = FileType.regular then
          { st1 with ignores := st1.ignores.parseGitignore childFile.content parentKey }
        else st1
      addFileM st2 { fd := fd, inode := inode } childFileId kind files
  let st3 : BuildSt := r.1
  let childKey := r.2.1
  let files1 := r.2.2
  let st4 : BuildSt :=
    { st3 with ignores := st3.ignores.openAt parentKey path childKey }
  let st5 : BuildSt :=
    { st4 with graph := st4.graph.addEdge parentKey childKey (Connection.child path) }
  let symlinks' :=
    match realName with
    | some rn => symlinks ++ [{ key := parentKey, path := rn }]
    | none => symlinks
  return (st5, files1, symlinks')

/-- The components of `Path::new(bytes)`, as `follow_path` consumes them. -/
inductive PathComp
  | curDir
  | parentDir
  | rootDir
  | normal (name : List Nat)
deriving DecidableEq, Repr

/-- Split a byte list on `/`. -/
def splitOnSep : List Nat → List (List Nat)
  | [] => [[]]
  | 47 :: rest => [] :: splitOnSep rest
  | c :: rest =>
    match splitOnSep rest with
    | chunk :: more => (c :: chunk) :: more
    | [] => [[c]]

/-- `Path::components()`: a leading `/` yields `RootDir`; empty chunks
vanish; `.` and `..` are the special components.  (Rust normalises non-leading
`.` away; emitting `CurDir` instead is indistinguishable to `follow_path`,
which skips `CurDir`.) -/
def pathComponents (bytes : List Nat) : List PathComp :=
  let lead := if bytes.head? = some 47 then [PathComp.rootDir] else []
  lead ++ (splitOnSep bytes).filterMap (fun chunk =>
    if chunk = [] then none
    else if chunk = [46] then some PathComp.curDir
    else if chunk = [46, 46] then some PathComp.parentDir
    else some (PathComp.normal chunk))

/-- `Tree::follow_path` (src/tree.rs lines 101-139): `.` stays, `..` steps to
the structural parent (first incoming edge from another node), a normal
component follows the first outgoing edge that is a `SymLink` or a `Child`
with the same name bytes; anything else fails. -/
def followPath (g : Graph Connection) : Nat → List PathComp → Option Nat
  | key, [] => some key
  | key, PathComp.curDir :: rest => followPath g key rest
  | key, PathComp.parentDir :: rest =>
    match (g.incoming key).find? (fun e => e.2 != key) with
    | some e => followPath g e.2 rest
    | none => none
  | key, PathComp.normal comp :: rest =>
    match (g.outgoing key).find? (fun e =>
        match e.1 with
        | some Connection.symlink => true
        | some (Connection.child name) => name == comp
        | none => false) with
    | some e => followPath g e.2 rest
    | none => none
  | _, PathComp.rootDir :: _ => none

/-- The child-processing loop of `Tree::new`: drain the LIFO work list.
The fuel bounds the number of iterations; the loop in the source terminates
because the filesystem is finite, so any sufficiently large fuel gives the
source's behaviour. -/
def buildLoop : Nat → BuildSt → List UnresolvedFile → List UnresolvedSymlink →
    Option (BuildSt × List UnresolvedSymlink)
  | 0, _, _, _ => none
  | _ + 1, st, [], symlinks => some (st, symlinks)
  | fuel + 1, st, uf :: rest, symlinks => do
    let r ← addChildFileM st uf.key uf.path rest symlinks
    buildLoop fuel r.1 r.2.1 r.2.2

/-- The symlink-resolution pass of `Tree::new` (src/tree.rs lines 77-94):
for each deferred record, find the structural parent of ITS key, walk the
target path from there, and on success add a `SymLink` edge FROM that key. -/
def resolvePass (st : BuildSt) : List UnresolvedSymlink → BuildSt
  | [] => st
  | us :: rest =>
    let st' :=
      match (st.graph.incoming us.key).find? (fun e => e.2 != us.key) with
      | none => st
      | some e =>
        match followPath st.graph e.2 (pathComponents us.path) with
        | some targetKey =>
          { st with graph := st.graph.addEdge us.key targetKey Connection.symlink }
        | none => st
    resolvePass st' rest

/-- `Tree::new` (src/tree.rs lines 41-97): open and stat the root, add it,
drain the work list, then resolve symlinks.  Returns the final state and the
root's key. -/
def buildTree (fs : SimFs) (fuel : Nat) : Option (BuildSt × Nat) := do
  let st0 : BuildSt :=
    { fs := fs, nextFd := 1, fdMap := [(0, fs.rootId)],
      store := emptyStore, graph := { weights := [], nodes := [] },
      ignores := emptyIgnore }
  let rootFile ← fs.getFile fs.rootId
  let entry : TreeEntry := { fd := 0, inode := rootFile.inode }
  let r ← addFileM st0 entry fs.rootId rootFile.kind []
  let r2 ← buildLoop fuel r.1 r.2.2 []
  let st3 := resolvePass r2.1 r2.2
  return (st3, r.2.1)

/-- Every `SymLink` edge of a graph, as `(source, destination)` pairs. -/
def symEdges (g : Graph Connection) : List (Nat × Nat) :=
  (List.range g.nodes.length).flatMap (fun n =>
    (g.outgoing n).filterMap (fun e =>
      match e.1 with
      | some Connection.symlink => some (n, e.2)
      | _ => none))

/-- The concrete filesystem of claim C1's failing input: a root directory
(inode 1) containing a directory `d` (inode 2) which contains a symbolic
link `l` (inode 3) whose stored target is `x`. -/
def fs1 : SimFs :=
  { files :=
      [ { kind := FileType.directory, inode := 1,
          children := [([100], 1)], target := [], content := [] },
        { kind := FileType.directory, inode := 2,
          children := [([108], 2)], target := [], content := [] },
        { kind := FileType.link, inode := 3,
          children := [], target := [120], content := [] } ],
    rootId := 0 }

/-! ## Concrete data for the claims -/

/-- Does a segment list contain two adjacent separators? -/
def hasDoubleSep : List Segment → Bool
  | Segment.separator :: Segment.separator :: _ => true
  | _ :: rest => hasDoubleSep rest
  | [] => false

/-- Does a segment list begin with a separator? -/
def headIsSep : List Segment → Bool
  | Segment.separator :: _ => true
  | _ => false

/-- The bytes of the pattern `path//to/file`. -/
def str9 : List Nat :=
  [112, 97, 116, 104, 47, 47, 116, 111, 47, 102, 105, 108, 101]

/-- The AST the parser actually produces for `path//to/file`. -/
def ast9 : Ast :=
  { startsNegated := false,
    segments :=
      [ Segment.pattern [Rx.lit 112, Rx.lit 97, Rx.lit 116, Rx.lit 104],
        Segment.separator,
        Segment.separator,
        Segment.pattern [Rx.lit 116, Rx.lit 111],
        Segment.separator,
        Segment.pattern [Rx.lit 102, Rx.lit 105, Rx.lit 108, Rx.lit 101] ] }

/-- A one-segment arena as compiled from the relative pattern `a`:
storage holds a single relative literal segment, no successor links. -/
def arena8 : GlobArena :=
  { storage :=
      [ { segment := some [Rx.lit 97], negated := false,
          trailingSlash := false, relative := true } ],
    children := [] }

/-- A byte string that is not valid UTF-8. -/
def name8 : List Nat := [255]

/-- The store after inserting the entry `(fd 3, inode 10)` into a fresh
store. -/
def s1bug : TreeStore :=
  { storage := [{ fd := 3, inode := 10 }], fdIndex := [0], inodeIndex := [0] }

/-- The store the source then builds when `(fd 3, inode 11)` is inserted:
two entries SHARING descriptor 3. -/
def s2bug : TreeStore :=
  { storage := [{ fd := 3, inode := 10 }, { fd := 3, inode := 11 }],
    fdIndex := [0, 1], inodeIndex := [0, 1] }

/-- A reachable one-entry store for claim C4's witness. -/
def s1c : TreeStore :=
  { storage := [{ fd := 3, inode := 5 }], fdIndex := [0], inodeIndex := [0] }

/-- A reachable two-entry store for claim C4's witness. -/
def s2c : TreeStore :=
  { storage := [{ fd := 3, inode := 5 }, { fd := 4, inode := 6 }],
    fdIndex := [0, 1], inodeIndex := [0, 1] }

/-- A concrete graph for claim C10's witness. -/
def g10 : Graph Nat := { weights := [], nodes := [] }

/-- The store invariant of claim C4: all stored descriptors distinct, all
stored inodes distinct; additionally both hash indexes contain exactly the
slab's indices (which insertion maintains). -/
def StoreInv (s : TreeStore) : Prop :=
  (storedFds s).Nodup ∧ (storedInodes s).Nodup ∧
  s.fdIndex = List.range s.storage.length ∧
  s.inodeIndex = List.range s.storage.length

/-! ## List helper lemmas -/

theorem getq_append {α : Type _} (l l' : List α) (i : Nat) :
    (l ++ l').get? i =
      if i < l.length then l.get? i else l'.get? (i - l.length) := by
  induction l generalizing i with
  | nil => simp
  | cons a l ih =>
    cases i with
    | zero => simp
    | succ n => simpa [Nat.succ_lt_succ_iff] using ih n

theorem getq_set {α : Type _} (l : List α) (i j : Nat) (x : α) :
    (l.set i x).get? j =
      if i = j ∧ i < l.length then some x else l.get? j := by
  induction l generalizing i j with
  | nil => simp
  | cons a l ih =>
    cases i with
    | zero => cases j <;> simp
    | succ n =>
      cases j with
      | zero => simp
      | succ m =>
        simpa [Nat.succ_lt_succ_iff] using ih n m

theorem getq_replicate {α : Type _} (n i : Nat) (a : α) :
    (List.replicate n a).get? i = if i < n then some a else none := by
  induction n generalizing i with
  | zero => simp
  | succ n ih =>
    cases i with
    | zero => simp [List.replicate]
    | succ m => simpa [List.replicate, Nat.succ_lt_succ_iff] using ih m

theorem getq_none_of_le {α : Type _} (l : List α) (i : Nat)
    (h : l.length ≤ i) : l.get? i = none := by
  exact List.get?_eq_none.mpr h

theorem findq_append {α : Type _} (l1 l2 : List α) (p : α → Bool) :
    (l1 ++ l2).find? p =
      match l1.find? p with
      | some x => some x
      | none => l2.find? p := by
  induction l1 with
  | nil => simp
  | cons a l ih =>
    by_cases h : p a
    · simp [List.find?_cons, h]
    · simp [List.find?_cons, h, ih]

theorem findq_range_unique (p : Nat → Bool) (n k : Nat) (hk : k < n)
    (hpk : p k = true) (huniq : ∀ j, p j = true → j = k) :
    (List.range n).find? p = some k := by
  induction n with
  | zero => omega
  | succ n ih =>
    rw [List.range_succ, findq_append]
    by_cases hkn : k < n
    · rw [ih hkn]
    · have hkeq : k = n := by omega
      subst hkeq
      have : (List.range k).find? p = none := by
        rw [List.find?_eq_none]
        intro x hx hpx
        have := huniq x hpx
        simp [List.mem_range] at hx
        omega
      rw [this]
      simp [List.find?_cons, hpk]

theorem nodup_getq_inj {α : Type _} {l : List α} (h : l.Nodup) {i j : Nat}
    {x : α} (hi : l.get? i = some x) (hj : l.get? j = some x) : i = j := by
  induction l generalizing i j with
  | nil => simp at hi
  | cons a l ih =>
    rcases List.nodup_cons.mp h with ⟨ha, hl⟩
    cases i with
    | zero =>
      cases j with
      | zero => rfl
      | succ m =>
        simp at hi
        subst hi
        simp only [List.get?] at hj
        exact absurd (List.get?_mem hj) ha
    | succ n =>
      cases j with
      | zero =>
        simp at hj
        subst hj
        simp only [List.get?] at hi
        exact absurd (List.get?_mem hi) ha
      | succ m =>
        simp only [List.get?] at hi hj
        exact congrArg Nat.succ (ih hl hi hj)

/-! ## Graph lemmas (claim C10) -/

theorem extendTo_nodes_length {W : Type} (g : Graph W) (n : Nat) :
    (g.extendTo n).nodes.length = max g.nodes.length (n + 1) := by
  simp [Graph.extendTo]
  omega

theorem extendTo_nodes_getq {W : Type} (g : Graph W) (n i : Nat) :
    (g.extendTo n).nodes.get? i =
      if i < g.nodes.length then g.nodes.get? i
      else if i < max g.nodes.length (n + 1) then some emptyGNode
      else none := by
  simp only [Graph.extendTo]
  rw [getq_append, getq_replicate]
  by_cases h1 : i < g.nodes.length
  · simp [h1]
  · simp only [h1, if_false]
    by_cases h2 : i < max g.nodes.length (n + 1)
    · have : i - g.nodes.length < 1 + n - g.nodes.length := by omega
      simp [this, h2]
    · have : ¬ (i - g.nodes.length < 1 + n - g.nodes.length) := by omega
      simp [this, h2]


theorem nodeAt_eq (l : List GNode) (i : Nat) :
    nodeAt l i = (l.get? i).getD emptyGNode := rfl

theorem nodeAt_set (l : List GNode) (i j : Nat) (x : GNode) :
    nodeAt (l.set i x) j = if i = j ∧ i < l.length then x else nodeAt l j := by
  rw [nodeAt_eq, nodeAt_eq, getq_set]
  by_cases h : i = j ∧ i < l.length
  · rcases h with ⟨h1, h2⟩
    subst h1
    simp [h2]
  · simp [h]

theorem extendTo_weights {W : Type} (g : Graph W) (n : Nat) :
    (g.extendTo n).weights = g.weights := rfl

theorem nodeAt_extendTo {W : Type} (g : Graph W) (n i : Nat) :
    (nodeAt (g.extendTo n).nodes i).outgoing = (nodeAt g.nodes i).outgoing ∧
      (nodeAt (g.extendTo n).nodes i).incoming = (nodeAt g.nodes i).incoming := by
  rw [nodeAt_eq, nodeAt_eq, extendTo_nodes_getq]
  by_cases h1 : i < g.nodes.length
  · simp [h1]
  · have : g.nodes.get? i = none := getq_none_of_le _ _ (by omega)
    simp only [h1, if_false, this]
    by_cases h2 : i < max g.nodes.length (n + 1) <;> simp [h2, emptyGNode]

theorem outsAt_extendTo {W : Type} (g : Graph W) (n i : Nat) :
    outsAt (g.extendTo n).nodes i = outsAt g.nodes i :=
  (nodeAt_extendTo g n i).1

theorem insAt_extendTo {W : Type} (g : Graph W) (n i : Nat) :
    insAt (g.extendTo n).nodes i = insAt g.nodes i :=
  (nodeAt_extendTo g n i).2

theorem outsAt_pushOutgoing (l : List GNode) (i : Nat) (e : InnerEdge)
    (j : Nat) :
    outsAt (pushOutgoing l i e) j =
      if i = j ∧ i < l.length then outsAt l j ++ [e] else outsAt l j := by
  unfold outsAt pushOutgoing
  rw [nodeAt_set]
  by_cases h : i = j ∧ i < l.length
  · rcases h with ⟨h1, h2⟩
    subst h1
    simp [h2]
  · simp [h]

theorem insAt_pushOutgoing (l : List GNode) (i : Nat) (e : InnerEdge)
    (j : Nat) :
    insAt (pushOutgoing l i e) j = insAt l j := by
  unfold insAt pushOutgoing
  rw [nodeAt_set]
  by_cases h : i = j ∧ i < l.length
  · rcases h with ⟨h1, h2⟩
    subst h1
    simp [h2]
  · simp [h]

theorem outsAt_pushIncoming (l : List GNode) (i : Nat) (e : InnerEdge)
    (j : Nat) :
    outsAt (pushIncoming l i e) j = outsAt l j := by
  unfold outsAt pushIncoming
  rw [nodeAt_set]
  by_cases h : i = j ∧ i < l.length
  · rcases h with ⟨h1, h2⟩
    subst h1
    simp [h2]
  · simp [h]

theorem insAt_pushIncoming (l : List GNode) (i : Nat) (e : InnerEdge)
    (j : Nat) :
    insAt (pushIncoming l i e) j =
      if i = j ∧ i < l.length then insAt l j ++ [e] else insAt l j := by
  unfold insAt pushIncoming
  rw [nodeAt_set]
  by_cases h : i = j ∧ i < l.length
  · rcases h with ⟨h1, h2⟩
    subst h1
    simp [h2]
  · simp [h]

theorem addEdge_weights {W : Type} (g : Graph W) (f t : Nat) (w : W) :
    (g.addEdge f t w).weights = g.weights ++ [w] := rfl

theorem addEdge_nodes_length {W : Type} (g : Graph W) (f t : Nat) (w : W) :
    (g.addEdge f t w).nodes.length = max g.nodes.length (max f t + 1) := by
  simp only [Graph.addEdge, pushIncoming, pushOutgoing]
  rw [List.length_set, List.length_set, extendTo_nodes_length]

theorem rawOutgoing_addEdge {W : Type} (g : Graph W) (f t : Nat) (w : W)
    (m : Nat) :
    rawOutgoing (g.addEdge f t w) m =
      if m = f then
        rawOutgoing g f ++ [{ weight := g.weights.length, connectsTo := t }]
      else rawOutgoing g m := by
  have hfE : f < (g.extendTo (max f t)).nodes.length := by
    rw [extendTo_nodes_length]; omega
  unfold rawOutgoing Graph.addEdge
  simp only
  rw [outsAt_pushIncoming, outsAt_pushOutgoing]
  by_cases h : m = f
  · subst h
    rw [if_pos ⟨rfl, hfE⟩, if_pos rfl, outsAt_extendTo, extendTo_weights]
  · rw [if_neg (by tauto), if_neg h, outsAt_extendTo]

theorem rawIncoming_addEdge {W : Type} (g : Graph W) (f t : Nat) (w : W)
    (m : Nat) :
    rawIncoming (g.addEdge f t w) m =
      if m = t then
        rawIncoming g t ++ [{ weight := g.weights.length, connectsTo := f }]
      else rawIncoming g m := by
  have htE : t < (pushOutgoing (g.extendTo (max f t)).nodes f
      { weight := (g.extendTo (max f t)).weights.length, connectsTo := t }).length := by
    unfold pushOutgoing
    rw [List.length_set, extendTo_nodes_length]
    omega
  unfold rawIncoming Graph.addEdge
  simp only
  rw [insAt_pushIncoming]
  by_cases h : m = t
  · subst h
    rw [if_pos ⟨rfl, htE⟩, if_pos rfl, insAt_pushOutgoing, insAt_extendTo,
      extendTo_weights]
  · rw [if_neg (by tauto), if_neg h, insAt_pushOutgoing, insAt_extendTo]

/-- C10: for every graph and node index `n` beyond the node table, the
`outgoing`/`incoming` iterations are total and empty; `add_edge(from, to, w)`
first extends the node table to cover `max(from, to)`, then appends exactly
one entry to `from`'s outgoing list and one to `to`'s incoming list, both
referring to the same freshly stored weight, and leaves every other node's
lists unchanged. -/
theorem c10_graph_add_edge {W : Type} (g : Graph W) (f t n m : Nat) (w : W)
    (hn : g.nodes.length ≤ n) (hmf : m ≠ f) (hmt : m ≠ t) :
    (g.outgoing n = [] ∧ g.incoming n = []) ∧
    (g.addEdge f t w).nodes.length = max g.nodes.length (max f t + 1) ∧
    (g.addEdge f t w).weights.get? g.weights.length = some w ∧
    rawOutgoing (g.addEdge f t w) f =
      rawOutgoing g f ++ [{ weight := g.weights.length, connectsTo := t }] ∧
    rawIncoming (g.addEdge f t w) t =
      rawIncoming g t ++ [{ weight := g.weights.length, connectsTo := f }] ∧
    rawOutgoing (g.addEdge f t w) m = rawOutgoing g m ∧
    rawIncoming (g.addEdge f t w) m = rawIncoming g m := by
  refine ⟨⟨?_, ?_⟩, addEdge_nodes_length g f t w, ?_, ?_, ?_, ?_, ?_⟩
  · unfold Graph.outgoing rawOutgoing outsAt
    rw [nodeAt_eq, getq_none_of_le _ _ hn]
    simp [emptyGNode]
  · unfold Graph.incoming rawIncoming insAt
    rw [nodeAt_eq, getq_none_of_le _ _ hn]
    simp [emptyGNode]
  · rw [addEdge_weights, getq_append]
    simp
  · rw [rawOutgoing_addEdge, if_pos rfl]
  · rw [rawIncoming_addEdge, if_pos rfl]
  · rw [rawOutgoing_addEdge, if_neg hmf]
  · rw [rawIncoming_addEdge, if_neg hmt]

/-- Witness for C10: the theorem applied to the concrete empty graph `g10`,
adding the edge `1 → 0` with weight `7`, probing unknown node `5` and
untouched node `2`. -/
theorem c10_graph_add_edge_witness :
    g10.nodes.length ≤ 5 ∧ (2 : Nat) ≠ 1 ∧ (2 : Nat) ≠ 0 ∧
    ((g10.outgoing 5 = [] ∧ g10.incoming 5 = []) ∧
      (g10.addEdge 1 0 7).nodes.length = max g10.nodes.length (max 1 0 + 1) ∧
      (g10.addEdge 1 0 7).weights.get? g10.weights.length = some 7 ∧
      rawOutgoing (g10.addEdge 1 0 7) 1 =
        rawOutgoing g10 1 ++ [{ weight := g10.weights.length, connectsTo := 0 }] ∧
      rawIncoming (g10.addEdge 1 0 7) 0 =
        rawIncoming g10 0 ++ [{ weight := g10.weights.length, connectsTo := 1 }] ∧
      rawOutgoing (g10.addEdge 1 0 7) 2 = rawOutgoing g10 2 ∧
      rawIncoming (g10.addEdge 1 0 7) 2 = rawIncoming g10 2) :=
  ⟨by decide, by decide, by decide,
    c10_graph_add_edge g10 1 0 5 2 7 (by decide) (by decide) (by decide)⟩

/-! ## Store lemmas (claims C3, C4) -/

theorem findFull_none (storage : List TreeEntry) (table : List Nat)
    (e : TreeEntry) (h : ∀ x ∈ storage, x ≠ e) :
    findFull storage table e = none := by
  unfold findFull
  rw [List.find?_eq_none]
  intro i _
  cases hg : storage.get? i with
  | none => simp
  | some x =>
    have := h x (List.get?_mem hg)
    simp [this]

theorem findFull_unique (storage : List TreeEntry) (e : TreeEntry) (k : Nat)
    (hk : storage.get? k = some e)
    (hnd : (storage.map TreeEntry.fd).Nodup) :
    findFull storage (List.range storage.length) e = some k := by
  unfold findFull
  have hklt : k < storage.length := by
    by_contra hc
    rw [getq_none_of_le _ _ (by omega)] at hk
    exact Option.noConfusion hk
  apply findq_range_unique _ _ k hklt
  · simp only [List.get?_eq_getElem?] at hk
    simp [hk]
  · intro j hj
    have hgj : storage.get? j = some e := by
      cases hg : storage.get? j with
      | none => rw [hg] at hj; simp at hj
      | some x =>
        rw [hg] at hj
        simp at hj
        rw [hj]
    have hmi : (storage.map TreeEntry.fd).get? k = some e.fd := by
      rw [List.get?_map, hk]; rfl
    have hmj : (storage.map TreeEntry.fd).get? j = some e.fd := by
      rw [List.get?_map, hgj]; rfl
    exact nodup_getq_inj hnd hmj hmi

theorem inodeToKey_none_not_mem (s : TreeStore) (inode : Nat)
    (hidx : s.inodeIndex = List.range s.storage.length)
    (h : s.inodeToKey inode = none) : inode ∉ storedInodes s := by
  intro hmem
  rcases List.mem_map.mp hmem with ⟨x, hx, hxi⟩
  rcases List.mem_iff_get?.mp hx with ⟨j, hj⟩
  have hjlt : j < s.storage.length := by
    by_contra hc
    rw [getq_none_of_le _ _ (by omega)] at hj
    exact Option.noConfusion hj
  unfold TreeStore.inodeToKey at h
  rw [List.find?_eq_none] at h
  have := h j (by rw [hidx]; exact List.mem_range.mpr hjlt)
  rw [hj] at this
  simp [hxi] at this

theorem insert_fresh (s : TreeStore) (e : TreeEntry)
    (hfd : e.fd ∉ storedFds s) :
    s.insert e = some
      ({ storage := s.storage ++ [e],
         fdIndex := s.fdIndex ++ [s.storage.length],
         inodeIndex := s.inodeIndex ++ [s.storage.length] },
       s.storage.length) := by
  have hne : ∀ x ∈ s.storage, x ≠ e := by
    intro x hx hxe
    exact hfd (hxe ▸ List.mem_map_of_mem TreeEntry.fd hx)
  unfold TreeStore.insert
  rw [findFull_none _ _ _ hne, findFull_none _ _ _ hne]

theorem storeInv_insert_fresh (s : TreeStore) (e : TreeEntry)
    (hinv : StoreInv s) (hfd : e.fd ∉ storedFds s)
    (hinode : e.inode ∉ storedInodes s) (s' : TreeStore) (k : Nat)
    (h : s.insert e = some (s', k)) : StoreInv s' := by
  rw [insert_fresh s e hfd] at h
  obtain ⟨hndf, hndi, hfidx, hiidx⟩ := hinv
  injection h with h
  injection h with h1 h2
  subst h1
  refine ⟨?_, ?_, ?_, ?_⟩
  · show (List.map TreeEntry.fd (s.storage ++ [e])).Nodup
    rw [List.map_append]
    refine List.Nodup.append hndf (List.nodup_singleton _) ?_
    intro a ha ha'
    rw [List.map_singleton, List.mem_singleton] at ha'
    subst ha'
    exact hfd ha
  · show (List.map TreeEntry.inode (s.storage ++ [e])).Nodup
    rw [List.map_append]
    refine List.Nodup.append hndi (List.nodup_singleton _) ?_
    intro a ha ha'
    rw [List.map_singleton, List.mem_singleton] at ha'
    subst ha'
    exact hinode ha
  · show s.fdIndex ++ [s.storage.length] = List.range (s.storage ++ [e]).length
    rw [hfidx, List.length_append, ← List.range_succ]
    rfl
  · show s.inodeIndex ++ [s.storage.length] = List.range (s.storage ++ [e]).length
    rw [hiidx, List.length_append, ← List.range_succ]
    rfl

theorem treeReach_storeInv (s : TreeStore) (h : TreeReach s) : StoreInv s := by
  induction h with
  | root e s' k h =>
    have hfd : e.fd ∉ storedFds emptyStore := by simp [storedFds, emptyStore]
    refine storeInv_insert_fresh emptyStore e ?_ hfd ?_ s' k h
    · exact ⟨by simp [storedFds, emptyStore], by simp [storedInodes, emptyStore],
        by simp [emptyStore], by simp [emptyStore]⟩
    · simp [storedInodes, emptyStore]
  | child s e s' k hr hfd h ih =>
    unfold addChildKey at h
    cases hik : s.inodeToKey e.inode with
    | some key =>
      rw [hik] at h
      injection h with h
      injection h with h1 h2
      exact h1 ▸ ih
    | none =>
      rw [hik] at h
      exact storeInv_insert_fresh s e ih hfd
        (inodeToKey_none_not_mem s e.inode ih.2.2.2 hik) s' k h

theorem insert_reinsert (s : TreeStore) (e : TreeEntry) (k : Nat)
    (hinv : StoreInv s) (hk : s.storage.get? k = some e) :
    s.insert e = some (s, k) := by
  obtain ⟨hndf, _, hfidx, hiidx⟩ := hinv
  unfold TreeStore.insert
  rw [hfidx, hiidx, findFull_unique s.storage e k hk hndf]
  simp

/-- C4: within one tree (any store state reachable by the builder's
insertions, with the POSIX guarantee that each newly opened descriptor is
fresh), no two distinct store entries share a descriptor or an inode; and
inserting an entry equal in both fields to an already-stored entry returns
that entry's existing identifier with the store unchanged. -/
theorem c4_store_uniqueness (s : TreeStore) (h : TreeReach s) :
    (∀ i j a b, i ≠ j → s.storage.get? i = some a →
      s.storage.get? j = some b → a.fd ≠ b.fd ∧ a.inode ≠ b.inode) ∧
    (∀ k e, s.storage.get? k = some e → s.insert e = some (s, k)) := by
  have hinv := treeReach_storeInv s h
  constructor
  · intro i j a b hij ha hb
    constructor
    · intro hfd
      apply hij
      have hmi : (s.storage.map TreeEntry.fd).get? i = some a.fd := by
        rw [List.get?_map, ha]; rfl
      have hmj : (s.storage.map TreeEntry.fd).get? j = some a.fd := by
        rw [List.get?_map, hb, hfd]; rfl
      exact nodup_getq_inj hinv.1 hmi hmj
    · intro hinode
      apply hij
      have hmi : (s.storage.map TreeEntry.inode).get? i = some a.inode := by
        rw [List.get?_map, ha]; rfl
      have hmj : (s.storage.map TreeEntry.inode).get? j = some a.inode := by
        rw [List.get?_map, hb, hinode]; rfl
      exact nodup_getq_inj hinv.2.1 hmi hmj
  · intro k e hk
    exact insert_reinsert s e k hinv hk

/-- Witness for C4: the store `s2c` is reached by inserting the root entry
`(fd 3, inode 5)` and then the child `(fd 4, inode 6)`, and the theorem's
conclusion holds there. -/
theorem c4_store_uniqueness_witness :
    TreeReach s2c ∧
    ((∀ i j a b, i ≠ j → s2c.storage.get? i = some a →
        s2c.storage.get? j = some b → a.fd ≠ b.fd ∧ a.inode ≠ b.inode) ∧
      (∀ k e, s2c.storage.get? k = some e → s2c.insert e = some (s2c, k))) :=
  have hr : TreeReach s2c :=
    TreeReach.child s1c { fd := 4, inode := 6 } s2c 1
      (TreeReach.root { fd := 3, inode := 5 } s1c 0 (by decide))
      (by decide) (by decide)
  ⟨hr, c4_store_uniqueness s2c hr⟩

/-- C3 (code bug): inserting `(fd 3, inode 11)` into a store that already
holds `(fd 3, inode 10)` — the entries share their descriptor but not their
inode — does NOT abort: the probes compare full entries, find no hit in
EITHER index, and the entry is silently stored under a fresh identifier,
leaving two entries with descriptor 3.  This contradicts the source's own
doc comment ("This function will panic if either the fd of the entry, or the
inode, has been used before in a different entry"). -/
theorem c3_insert_shared_fd_no_abort :
    TreeStore.insert emptyStore { fd := 3, inode := 10 } = some (s1bug, 0) ∧
    TreeStore.insert s1bug { fd := 3, inode := 11 } = some (s2bug, 1) ∧
    storedFds s2bug = [3, 3] ∧
    TreeStore.insert s1bug { fd := 3, inode := 11 } ≠ none := by
  refine ⟨by decide, by decide, by decide, ?_⟩
  intro hc
  rw [show TreeStore.insert s1bug { fd := 3, inode := 11 } = some (s2bug, 1)
    from by decide] at hc
  exact Option.noConfusion hc

/-! ## Ignore-stack lemmas (claim C6) -/

theorem foldl_combineOpen (l : List (Option Bool)) (acc : Option Bool) :
    l.foldl combineOpen acc =
      if acc == some true || l.any (fun o => o == some true) then some true
      else acc.or
        (if l.any (fun o => o == some false) then some false else none) := by
  induction l generalizing acc with
  | nil =>
    cases acc with
    | none => simp
    | some b => cases b <;> simp
  | cons x l ih =>
    rw [List.foldl_cons, ih]
    cases acc with
    | none =>
      cases x with
      | none => simp [combineOpen, List.any_cons]
      | some b => cases b <;> simp [combineOpen, List.any_cons]
    | some a =>
      cases a with
      | false =>
        cases x with
        | none => simp [combineOpen, List.any_cons]
        | some b => cases b <;> simp [combineOpen, List.any_cons]
      | true =>
        cases x with
        | none => simp [combineOpen, List.any_cons]
        | some b => cases b <;> simp [combineOpen, List.any_cons]

theorem optMapNot_eq_some_true (o : Option Bool) :
    ((o.map (fun x => !x)) == some true) = (o == some false) := by
  cases o with
  | none => rfl
  | some b => cases b <;> rfl

theorem optMapNot_eq_some_false (o : Option Bool) :
    ((o.map (fun x => !x)) == some false) = (o == some true) := by
  cases o with
  | none => rfl
  | some b => cases b <;> rfl

theorem anyMap {α β : Type _} (f : α → β) (l : List α) (p : β → Bool) :
    (l.map f).any p = l.any (fun a => p (f a)) := by
  induction l with
  | nil => rfl
  | cons a l ih => simp [List.any_cons, ih]

/-- C6: `should_open` returns `false` for hidden names other than
`.gitignore`; otherwise an explicit keep (`match_file = Some false`) from any
active segment forces `true`, else any ignore (`match_file = Some true`)
forces `false`, else it returns `true` — i.e. the source's fold agrees with
the spec's precedence rule on every state and input. -/
theorem c6_should_open_correct (ig : Ignore) (parent : Nat) (name : List Nat)
    (isDir : Bool) :
    ig.shouldOpen parent name isDir = ig.shouldOpenSpec parent name isDir := by
  unfold Ignore.shouldOpen Ignore.shouldOpenSpec
  by_cases hh : name.head? = some 46 ∧ name ≠ gitignoreBytes
  · rw [if_pos hh, if_pos hh]
  · rw [if_neg hh, if_neg hh]
    simp only
    rw [foldl_combineOpen]
    simp only [anyMap]
    simp only [optMapNot_eq_some_true, optMapNot_eq_some_false]
    by_cases h1 : (globsAt ig parent).any
        (fun g => ig.arena.matchFile g name isDir == some false)
    · simp [h1]
    · by_cases h2 : (globsAt ig parent).any
          (fun g => ig.arena.matchFile g name isDir == some true)
      · simp [h1, h2]
      · simp [h1, h2]

/-- C7: `match_file` agrees with the spec's description on every arena, key,
name and `is_dir` flag: `None` when the segment has a successor, `None` for
names that are not valid UTF-8, otherwise `Some (!negated)` exactly when the
name matches the segment's matcher (with Anything matching every decoded
name). -/
theorem c7_match_file_correct (a : GlobArena) (key : Nat) (name : List Nat)
    (isDir : Bool) :
    a.matchFile key name isDir = a.matchFileSpec key name isDir := by
  unfold GlobArena.matchFile GlobArena.matchFileSpec
  cases hs : a.storage.get? key with
  | none => by_cases hc : (childOf a key).isSome <;> simp [hc]
  | some glob => by_cases hc : (childOf a key).isSome <;> simp [hc]

/-- Counterexample to C8 as stated: for the relative segment compiled from
`a` (arena `arena8`) and the non-UTF-8 directory name `0xFF`, the stay set is
nonempty (`{0}`, the segment is relative), so the claimed union is
`Some [0]`; the source's `match_dir` nevertheless returns `None`, because it
bails out on the failed UTF-8 decode before computing the stay set. -/
theorem c8_match_dir_non_utf8_cex :
    arena8.matchDir 0 name8 = none ∧
    arena8.matchDirSpec 0 name8 = some [0] ∧
    arena8.matchDir 0 name8 ≠ arena8.matchDirSpec 0 name8 := by decide

/-- C8 (amended): for every compiled segment and directory name, when the
name is valid UTF-8 `match_dir` returns exactly the union of the descend set
and the stay set (`None` when that union is empty); for a name that is not
valid UTF-8 it returns `None` even when the stay set is nonempty. -/
theorem c8_match_dir_union (a : GlobArena) (key : Nat) (name : List Nat) :
    a.matchDir key name =
      if (utf8Decode name).isSome then a.matchDirSpec key name else none := by
  unfold GlobArena.matchDir GlobArena.matchDirSpec
  cases hs : a.storage.get? key with
  | none => cases hd : utf8Decode name <;> simp
  | some glob =>
    cases hd : utf8Decode name with
    | none => simp
    | some chars =>
      simp only [Option.isSome_some, if_true]
      by_cases hm : segMatches glob chars <;>
        cases hco : childOf a key <;>
          cases hrel : glob.relative <;>
            cases hseg : glob.segment <;>
              simp [hm, hco, hrel, hseg, segMatches] at hm ⊢ <;>
                simp [hm]

/-! ## Parser/compile lemmas (claim C9) -/

theorem hasDoubleSep_cons_pattern (rx : List Rx) (rest : List Segment) :
    hasDoubleSep (Segment.pattern rx :: rest) = hasDoubleSep rest := rfl

theorem hasDoubleSep_cons_anything (rest : List Segment) :
    hasDoubleSep (Segment.anything :: rest) = hasDoubleSep rest := rfl

theorem batchSegments_err (input : List Nat) :
    ∀ n segs, segs.length ≤ n →
      hasDoubleSep segs = true ∨ headIsSep segs = true →
      ∃ m, batchSegments input segs =
        Except.error (GlobError.invalidCompile input m) := by
  intro n
  induction n with
  | zero =>
    intro segs hlen hpred
    cases segs with
    | nil => simp [hasDoubleSep, headIsSep] at hpred
    | cons s rest => simp at hlen
  | succ n ih =>
    intro segs hlen hpred
    cases segs with
    | nil => simp [hasDoubleSep, headIsSep] at hpred
    | cons s rest =>
      cases s with
      | separator => exact ⟨"unexpected /", rfl⟩
      | pattern rx =>
        have hds : hasDoubleSep rest = true := by
          rcases hpred with h | h
          · rwa [hasDoubleSep_cons_pattern] at h
          · simp [headIsSep] at h
        cases rest with
        | nil => simp [hasDoubleSep] at hds
        | cons s2 r2 =>
          cases s2 with
          | separator =>
            have hpred2 : hasDoubleSep r2 = true ∨ headIsSep r2 = true := by
              cases r2 with
              | nil => simp [hasDoubleSep] at hds
              | cons s3 r3 =>
                cases s3 with
                | separator => right; rfl
                | pattern rx3 => left; exact hds
                | anything => left; exact hds
            obtain ⟨m, hm⟩ := ih r2 (by simp at hlen ⊢; omega) hpred2
            refine ⟨m, ?_⟩
            show (match batchSegments input r2 with
              | Except.ok pairs => Except.ok ((some rx, true) :: pairs)
              | Except.error e => Except.error e) =
              Except.error (GlobError.invalidCompile input m)
            rw [hm]
          | pattern rx2 => exact ⟨"/ needed between sections", rfl⟩
          | anything => exact ⟨"/ needed between sections", rfl⟩
      | anything =>
        have hds : hasDoubleSep rest = true := by
          rcases hpred with h | h
          · rwa [hasDoubleSep_cons_anything] at h
          · simp [headIsSep] at h
        cases rest with
        | nil => simp [hasDoubleSep] at hds
        | cons s2 r2 =>
          cases s2 with
          | separator =>
            have hpred2 : hasDoubleSep r2 = true ∨ headIsSep r2 = true := by
              cases r2 with
              | nil => simp [hasDoubleSep] at hds
              | cons s3 r3 =>
                cases s3 with
                | separator => right; rfl
                | pattern rx3 => left; exact hds
                | anything => left; exact hds
            obtain ⟨m, hm⟩ := ih r2 (by simp at hlen ⊢; omega) hpred2
            refine ⟨m, ?_⟩
            show (match batchSegments input r2 with
              | Except.ok pairs => Except.ok ((none, true) :: pairs)
              | Except.error e => Except.error e) =
              Except.error (GlobError.invalidCompile input m)
            rw [hm]
          | pattern rx2 => exact ⟨"/ needed between sections", rfl⟩
          | anything => exact ⟨"/ needed between sections", rfl⟩

/-- Counterexample to C9 as stated: the parse step does NOT reject
`path//to/file`; `parse` succeeds and returns the AST with the two adjacent
`Separator` segments (so the claimed parse error does not occur). -/
theorem c9_double_sep_parses_ok :
    parseGlob str9 = Except.ok ast9 ∧ hasDoubleSep ast9.segments = true := by
  constructor
  · rfl
  · rfl

/-- C9 (amended): a pattern with two consecutive separators is rejected not
by `parse` but by `compile_glob`: whenever `parse` succeeds with an AST whose
segment list contains two adjacent separators, `compile_glob` fails with an
`InvalidGlobCompile` error (the batching step rejects the stray separator). -/
theorem c9_double_sep_compile_error (a : GlobArena) (input : List Nat)
    (ast : Ast) (hp : parseGlob input = Except.ok ast)
    (hd : hasDoubleSep ast.segments = true) :
    ∃ m, compileGlob a input =
      Except.error (GlobError.invalidCompile input m) := by
  unfold compileGlob
  rw [hp]
  cases hsegs : ast.segments with
  | nil => rw [hsegs] at hd; simp [hasDoubleSep] at hd
  | cons s rest =>
    rw [hsegs] at hd
    cases s with
    | separator =>
      have hpred : hasDoubleSep rest = true ∨ headIsSep rest = true := by
        cases rest with
        | nil => simp [hasDoubleSep] at hd
        | cons s2 r2 =>
          cases s2 with
          | separator => right; rfl
          | pattern rx2 => left; exact hd
          | anything => left; exact hd
      obtain ⟨m, hm⟩ := batchSegments_err input rest.length rest le_rfl hpred
      refine ⟨m, ?_⟩
      dsimp only
      rw [hsegs]
      dsimp only
      rw [hm]
    | pattern rx =>
      obtain ⟨m, hm⟩ :=
        batchSegments_err input (Segment.pattern rx :: rest).length
          (Segment.pattern rx :: rest) le_rfl (Or.inl hd)
      refine ⟨m, ?_⟩
      dsimp only
      rw [hsegs]
      dsimp only
      rw [hm]
    | anything =>
      obtain ⟨m, hm⟩ :=
        batchSegments_err input (Segment.anything :: rest).length
          (Segment.anything :: rest) le_rfl (Or.inl hd)
      refine ⟨m, ?_⟩
      dsimp only
      rw [hsegs]
      dsimp only
      rw [hm]

/-- Witness for C9's amended theorem: applying it to the concrete pattern
`path//to/file` (whose parse succeeds with adjacent separators) yields the
compile-step failure. -/
theorem c9_double_sep_compile_error_witness :
    (parseGlob str9 = Except.ok ast9 ∧ hasDoubleSep ast9.segments = true) ∧
    ∃ m, compileGlob emptyArena str9 =
      Except.error (GlobError.invalidCompile str9 m) :=
  ⟨⟨rfl, rfl⟩, c9_double_sep_compile_error emptyArena str9 ast9 rfl rfl⟩

/-- C2 (code bug): `get_link_name` always returns the EMPTY byte string,
never the link's target: the buffer is `Vec::with_capacity(1024)`, whose
length is 0, so `readlinkat` is invoked with buffer length 0 and (under the
POSIX model of §6) reports 0 bytes.  For the failing input — a symlink whose
target is the one-byte path `a` — the retained link-target `[]` differs from
the target `[97]` the claim requires. -/
theorem c2_get_link_name_empty :
    (∀ content : List Nat, getLinkName content = []) ∧
    getLinkName [97] = [] ∧ getLinkName [97] ≠ [97] := by
  refine ⟨?_, by decide, by decide⟩
  intro content
  simp [getLinkName, readlinkatModel]

/-- Counterexample to C5 as stated: when `openat` fails with `EMFILE` twice
and then succeeds, the claim says the second failure propagates as an error
after the single retry; the source's `open_at` instead raises the limit
again and retries again, and the call SUCCEEDS (with the limit doubled
twice, 10 → 40). -/
theorem c5_open_at_retries_again_cex :
    openAtModel 10 [SysRes.err 24, SysRes.err 24, SysRes.ok 7] =
      Except.ok (7, 40) ∧
    openAtModel 10 [SysRes.err 24, SysRes.err 24, SysRes.ok 7] ≠
      Except.error 24 := by
  refine ⟨rfl, fun h => ?_⟩
  rw [show openAtModel 10 [SysRes.err 24, SysRes.err 24, SysRes.ok 7] =
    Except.ok (7, 40) from rfl] at h
  exact Except.noConfusion h

/-- C5 (amended): `open` doubles the limit on `EMFILE` and retries
`open_raw` exactly once, returning the retry's result as-is (a second
failure, `EMFILE` or other, propagates); `open_at` doubles the limit on
`EMFILE` and calls ITSELF, so it keeps doubling and retrying as long as
`EMFILE` recurs; non-`EMFILE` errors propagate immediately for both. -/
theorem c5_retry_semantics :
    (∀ limit fd rest,
        openModel limit (SysRes.ok fd :: rest) = Except.ok (fd, limit) ∧
        openAtModel limit (SysRes.ok fd :: rest) = Except.ok (fd, limit)) ∧
    (∀ limit c rest, c ≠ 24 →
        openModel limit (SysRes.err c :: rest) = Except.error c ∧
        openAtModel limit (SysRes.err c :: rest) = Except.error c) ∧
    (∀ limit fd rest,
        openModel limit (SysRes.err 24 :: SysRes.ok fd :: rest) =
          Except.ok (fd, 2 * limit)) ∧
    (∀ limit c2 rest,
        openModel limit (SysRes.err 24 :: SysRes.err c2 :: rest) =
          Except.error c2) ∧
    (∀ limit rest,
        openAtModel limit (SysRes.err 24 :: rest) =
          openAtModel (2 * limit) rest) := by
  refine ⟨fun limit fd rest => ⟨rfl, rfl⟩, ?_,
    fun limit fd rest => rfl, fun limit c2 rest => rfl,
    fun limit rest => by simp [openAtModel]⟩
  intro limit c rest h
  have hc : (c == 24) = false := by simp [h]
  constructor
  · simp [openModel, hc]
  · simp [openAtModel, hc]

/-- Witness for C5's amended theorem at the concrete non-`EMFILE` error
code 5. -/
theorem c5_retry_semantics_witness :
    (5 : Nat) ≠ 24 ∧
    (openModel 10 [SysRes.err 5] = Except.error 5 ∧
      openAtModel 10 [SysRes.err 5] = Except.error 5) :=
  ⟨by decide, c5_retry_semantics.2.1 10 5 [] (by decide)⟩

/-- C1 (code bug): building the tree over `fs1` (root → directory `d` →
symlink `l`), the resolution pass resolves the deferred symlink successfully
and the resulting graph's only `SymLink` edge is `(1, 0)` — it originates at
node 1, which is the DIRECTORY `d` (store inode 2), not at the link's node 2
(store inode 3), which has no outgoing edges at all.  The source pushes
`UnresolvedSymlink { key: parent_key, .. }` and later adds the edge from that
key, so the edge comes from the symlink's parent directory, contradicting the
claim that it is added from the link's own node (and the invariant that only
`Link` nodes have outgoing `SymLink` edges). -/
theorem c1_symlink_edge_from_parent_dir :
    ((buildTree fs1 20).map (fun p =>
      (symEdges p.1.graph,
       p.1.store.storage.map TreeEntry.inode,
       (Graph.outgoing p.1.graph 2).length))) =
      some ([(1, 0)], [1, 2, 3], 0) ∧
    (fs1.getFile 1).map SimFile.kind = some FileType.directory ∧
    (fs1.getFile 2).map SimFile.kind = some FileType.link := by
  exact ⟨by decide, rfl, rfl⟩
